import Mathlib

/-!
Verification of the `simple-caches` library (TTLCache, LRUCache, REDISCache).

The JavaScript classes `TTLCache` and `LRUCache` extend the built-in `Map`,
which is an insertion-ordered, unique-key association container.  We embed a
`Map` state as a `List (K × V)` in insertion order.  All states reachable
through the `Map` interface have unique keys, so the operations below —
`jsMapSet` replaces the (unique) binding in place, `jsMapRemove` drops every
binding of the key — coincide with the JavaScript semantics on every
reachable state.

JavaScript truthiness checks on generic keys/values are embedded as explicit
`K → Bool` / `V → Bool` parameters (for `Nat`, `0` is the falsy value, so the
JS truthiness of a number key/value is `· != 0`).  `Date.now()` instants and
millisecond TTLs are embedded as `Nat`.
-/

set_option maxHeartbeats 1000000
set_option linter.unusedSectionVars false

variable {K : Type} {V : Type} [DecidableEq K]

/-- `Map.prototype.get`: the value bound to `k`, or `undefined` (`none`). -/
def jsMapGet : List (K × V) → K → Option V
  | [], _ => none
  | (k', v') :: rest, k => if k' = k then some v' else jsMapGet rest k

/-- `Map.prototype.set`: replace the binding of `k` in place if present
(a JS `Map` does **not** move an updated key to the end), otherwise append
the new binding at the most-recent end. -/
def jsMapSet : List (K × V) → K → V → List (K × V)
  | [], k, v => [(k, v)]
  | (k', v') :: rest, k, v =>
    if k' = k then (k, v) :: rest else (k', v') :: jsMapSet rest k v

/-- `Map.prototype.has`: whether `k` is bound. -/
def jsMapHas : List (K × V) → K → Bool
  | [], _ => false
  | (k', _) :: rest, k => if k' = k then true else jsMapHas rest k

/-- The state after `Map.prototype.delete`: every binding of `k` removed
(on unique-key states, the single binding of `k`). -/
def jsMapRemove : List (K × V) → K → List (K × V)
  | [], _ => []
  | (k', v') :: rest, k =>
    if k' = k then jsMapRemove rest k else (k', v') :: jsMapRemove rest k

/-- `Map.prototype.delete`: returns whether the key was present, paired with
the new state. -/
def jsMapDelete (m : List (K × V)) (k : K) : Bool × List (K × V) :=
  (jsMapHas m k, jsMapRemove m k)

/-- JS truthiness of a number (`0` is falsy). -/
def natTruthy : Nat → Bool := fun n => n != 0

/-!
## LRUCache

```js
export class LRUCache extends Map {
    capacity;
    constructor(capacity = 100) { super(); this.capacity = capacity; }
    get(key) {
        const value = super.get(key);
        if (!value) return undefined;
        super.delete(key);
        super.set(key, value);
        return value;
    }
    set(key, value) {
        if (super.size >= this.capacity) {
            const value = super.keys().next().value;
            if (value) { super.delete(value); }
        }
        super.set(key, value);
        return this;
    }
}
```

`store` is the inherited `Map` content.  `kTruthy` embeds the JS truthiness
test `if (value)` applied to the first *key* in `set`; `vTruthy` embeds the
`if (!value)` test applied to the looked-up *value* in `get`.
-/

structure LRUCache (K V : Type) where
  capacity : Nat
  store : List (K × V)

/-- `LRUCache.get`: a miss, or a present-but-falsy value, returns
`undefined` with no state change; a truthy hit is deleted and re-appended at
the most-recent end, then returned. -/
def LRUCache.get (vTruthy : V → Bool) (c : LRUCache K V) (k : K) :
    Option V × LRUCache K V :=
  match jsMapGet c.store k with
  | none => (none, c)
  | some v =>
    if vTruthy v then
      (some v, { c with store := jsMapSet (jsMapRemove c.store k) k v })
    else (none, c)

/-- `LRUCache.set`: when `size >= capacity`, the first key is evicted — but
only if that key is truthy (`if (value)` in the source); then the binding is
set on the inherited map. -/
def LRUCache.set (kTruthy : K → Bool) (c : LRUCache K V) (k : K) (v : V) :
    LRUCache K V :=
  let s :=
    if c.store.length ≥ c.capacity then
      match c.store.head? with
      | some (k0, _) => if kTruthy k0 then jsMapRemove c.store k0 else c.store
      | none => c.store
    else c.store
  { c with store := jsMapSet s k v }

/-- `LRUCache.delete` is not overridden: it is the inherited
`Map.prototype.delete`. -/
def LRUCache.delete (c : LRUCache K V) (k : K) : Bool × LRUCache K V :=
  (jsMapHas c.store k, { c with store := jsMapRemove c.store k })

/-- Folding `LRUCache.set` over a list of key/value pairs, in order. -/
def insertAll (kTruthy : K → Bool) (c : LRUCache K V) (ps : List (K × V)) :
    LRUCache K V :=
  ps.foldl (fun a p => LRUCache.set kTruthy a p.1 p.2) c

/-!
## TTLCache

```js
export class TTLCache extends Map {
    interval; expirationTimes; expirationInterval;
    startExpirationInterval() {
        if (!this.expirationInterval && this.expirationTimes.size > 0 && this.interval > 0) {
            this.expirationInterval = setInterval(() => {
                const now = Date.now();
                this.expirationTimes.forEach((ttl, key) => {
                    if (now > ttl) { this.expirationTimes.delete(key); super.delete(key); }
                });
                if (!this.expirationTimes.size) {
                    clearInterval(this.expirationInterval);
                    this.expirationInterval = undefined;
                }
            }, this.interval);
        }
    }
    constructor(interval = 0) {
        super();
        this.interval = interval;
        this.expirationTimes = new Map();
        this.expirationInterval = undefined;
        if (this.interval > 0) this.startExpirationInterval();
    }
    set(key, data, ttl = this.interval) {
        super.set(key, data);
        const expirationTime = Date.now() + ttl;
        this.expirationTimes.set(key, expirationTime);
        this.startExpirationInterval();
        return this;
    }
    get(key) {
        const expirationTime = this.expirationTimes.get(key);
        if (expirationTime && Date.now() > expirationTime) {
            this.expirationTimes.delete(key);
            super.delete(key);
            return undefined;
        }
        return super.get(key);
    }
    delete(key) { this.expirationTimes.delete(key); return super.delete(key); }
    clear() { this.expirationTimes.clear(); super.clear(); }
}
```

`store` is the inherited `Map` content; `expirationInterval` is `true` when
a live `setInterval` handle exists.  `Date.now()` is passed explicitly as a
`now : Nat` argument to the time-dependent operations, and the optional `ttl`
parameter of `set` is an `Option Nat` (JS default parameters fire exactly
when the argument is absent/`undefined`).
-/

structure TTLCache (K V : Type) where
  interval : Nat
  store : List (K × V)
  expirationTimes : List (K × Nat)
  expirationInterval : Bool

/-- `startExpirationInterval`: arm the recurring sweep only when no handle
exists, the expiry index is non-empty, and the interval is positive. -/
def TTLCache.startExpirationInterval (c : TTLCache K V) : TTLCache K V :=
  if c.expirationInterval = false ∧ 0 < c.expirationTimes.length ∧
      0 < c.interval then
    { c with expirationInterval := true }
  else c

/-- The `TTLCache` constructor: empty maps, no handle; a positive interval
calls `startExpirationInterval` (which does nothing on the empty index). -/
def TTLCache.init (interval : Nat) : TTLCache K V :=
  let c : TTLCache K V := ⟨interval, [], [], false⟩
  if 0 < interval then c.startExpirationInterval else c

/-- `TTLCache.set` at instant `now`: store the value, record
`expiry = now + ttl` (the default-parameter means an *absent* `ttl` argument
— and only an absent one — uses `this.interval`), then re-arm the sweep. -/
def TTLCache.set (c : TTLCache K V) (k : K) (v : V) (now : Nat)
    (ttlArg : Option Nat) : TTLCache K V :=
  let ttl := ttlArg.getD c.interval
  let c1 : TTLCache K V :=
    { c with store := jsMapSet c.store k v,
             expirationTimes := jsMapSet c.expirationTimes k (now + ttl) }
  c1.startExpirationInterval

/-- `TTLCache.get` at instant `now`: if a *truthy* recorded expiry has
strictly passed (`expirationTime && now > expirationTime`), remove the entry
from both maps and return `undefined`; otherwise return the inherited
lookup. -/
def TTLCache.get (c : TTLCache K V) (k : K) (now : Nat) :
    Option V × TTLCache K V :=
  match jsMapGet c.expirationTimes k with
  | some e =>
    if e ≠ 0 ∧ now > e then
      (none, { c with expirationTimes := jsMapRemove c.expirationTimes k,
                      store := jsMapRemove c.store k })
    else (jsMapGet c.store k, c)
  | none => (jsMapGet c.store k, c)

/-- `TTLCache.delete`: drop the key from the expiry index, then return the
inherited `Map.prototype.delete` result on the value store. -/
def TTLCache.delete (c : TTLCache K V) (k : K) : Bool × TTLCache K V :=
  (jsMapHas c.store k,
   { c with expirationTimes := jsMapRemove c.expirationTimes k,
            store := jsMapRemove c.store k })

/-- `TTLCache.clear`: empty both maps (the sweep handle is left as is). -/
def TTLCache.clear (c : TTLCache K V) : TTLCache K V :=
  { c with expirationTimes := [], store := [] }

/-- `TTLCache.has` is not overridden: the inherited `Map.prototype.has` on
the value store, ignoring expiry. -/
def TTLCache.has (c : TTLCache K V) (k : K) : Bool := jsMapHas c.store k

/-- `TTLCache.size` is not overridden: the inherited `Map` entry count on
the value store, ignoring expiry. -/
def TTLCache.size (c : TTLCache K V) : Nat := c.store.length

/-- One pass of the sweep body's `forEach` over the expiry index at instant
`now`: each entry with `now > expiry` is dropped from the index and its key
deleted from the value store.  Returns (new expiry index, new store). -/
def sweepScan : List (K × Nat) → Nat → List (K × V) →
    List (K × Nat) × List (K × V)
  | [], _, store => ([], store)
  | (k, e) :: rest, now, store =>
    if now > e then sweepScan rest now (jsMapRemove store k)
    else
      let p := sweepScan rest now store
      ((k, e) :: p.1, p.2)

/-- One tick of the `setInterval` sweep callback at instant `now`: scan the
expiry index, then — if the index is now empty — cancel the interval and
clear the handle. -/
def TTLCache.sweepTick (c : TTLCache K V) (now : Nat) : TTLCache K V :=
  let p := sweepScan c.expirationTimes now c.store
  if p.1.length = 0 then
    { c with expirationTimes := p.1, store := p.2, expirationInterval := false }
  else
    { c with expirationTimes := p.1, store := p.2 }

/-!
## REDISCache

Every method wraps its body in `try/catch`: a failure of a redis primitive
or of `JSON.parse`/`JSON.stringify` is caught, logged, and replaced by a
neutral result.  The redis client is embedded as a record of fallible
primitives (`Except Err _`), and JSON (de)serialization as fallible `parse`
/ `stringify` fields, so that "the call threw" is the `.error` case.
-/

/-- The redis client dependency: each primitive either returns a result or
throws (`Except.error`).  `rset`'s `Option Nat` is the optional `EX`
expiration in seconds (`none` = no expiry option passed). -/
structure RedisClient (Err : Type) where
  rget : String → Except Err (Option String)
  rset : String → String → Option Nat → Except Err Unit
  rdel : List String → Except Err Nat
  rexists : String → Except Err Nat
  rkeys : String → Except Err (List String)

/-- The `REDISCache` facade state: the key prefix, the client, and the JSON
codec for `V`. -/
structure REDISCache (V Err : Type) where
  identifier : String
  redis : RedisClient Err
  stringify : V → Except Err String
  parse : String → Except Err V

/-- The raw key for a logical key: `identifier:key`. -/
def REDISCache.rawKey (c : REDISCache V' Err) (k : String) : String :=
  c.identifier ++ ":" ++ k

/-- The scan pattern for the whole namespace: `identifier:*`. -/
def REDISCache.pattern (c : REDISCache V' Err) : String :=
  c.identifier ++ ":*"

/-- `REDISCache.get`: fetch and parse; a `null`/empty (falsy) payload, a
transport error or a parse error all yield `undefined`. -/
def REDISCache.get (c : REDISCache V' Err) (k : String) : Option V' :=
  match c.redis.rget (c.rawKey k) with
  | .error _ => none
  | .ok none => none
  | .ok (some s) =>
    if s = "" then none
    else
      match c.parse s with
      | .error _ => none
      | .ok v => some v

/-- `REDISCache.set`: serialize and store (with `EX ttl` when `ttl > 0`);
`true` on success, `false` when anything throws. -/
def REDISCache.set (c : REDISCache V' Err) (k : String) (v : V') (ttl : Nat) :
    Bool :=
  match c.stringify v with
  | .error _ => false
  | .ok s =>
    match c.redis.rset (c.rawKey k) s (if ttl > 0 then some ttl else none) with
    | .error _ => false
    | .ok _ => true

/-- `REDISCache.delete`: `true` iff the `del` count is exactly 1; `false`
when the call throws. -/
def REDISCache.delete (c : REDISCache V' Err) (k : String) : Bool :=
  match c.redis.rdel [c.rawKey k] with
  | .error _ => false
  | .ok n => n == 1

/-- `REDISCache.has`: `true` iff `exists` returns 1; `false` when the call
throws. -/
def REDISCache.has (c : REDISCache V' Err) (k : String) : Bool :=
  match c.redis.rexists (c.rawKey k) with
  | .error _ => false
  | .ok n => n == 1

/-- The body of the `for` loop in `values()`: fetch and parse each raw key,
skipping falsy payloads; an error anywhere aborts the whole loop (the
surrounding `try` catches it). -/
def valuesLoop (c : REDISCache V' Err) : List String → List V' →
    Except Err (List V')
  | [], acc => .ok acc
  | k :: rest, acc =>
    match c.redis.rget k with
    | .error e => .error e
    | .ok none => valuesLoop c rest acc
    | .ok (some s) =>
      if s = "" then valuesLoop c rest acc
      else
        match c.parse s with
        | .error e => .error e
        | .ok v => valuesLoop c rest (acc ++ [v])

/-- `REDISCache.values`: scan the namespace and collect parsed values; any
throw (scan, fetch, or parse) is caught and yields the empty array. -/
def REDISCache.values (c : REDISCache V' Err) : List V' :=
  match c.redis.rkeys c.pattern with
  | .error _ => []
  | .ok ks =>
    match valuesLoop c ks [] with
    | .error _ => []
    | .ok vs => vs

/-- `REDISCache.clear`: scan the namespace and bulk-delete when non-empty;
throws are caught (the method returns nothing either way). -/
def REDISCache.clear (c : REDISCache V' Err) : Unit :=
  match c.redis.rkeys c.pattern with
  | .error _ => ()
  | .ok ks =>
    if ks.length > 0 then
      match c.redis.rdel ks with
      | .error _ => ()
      | .ok _ => ()
    else ()

/-- `REDISCache.size`: the number of raw keys under the namespace; a throw
is caught and yields 0. -/
def REDISCache.size (c : REDISCache V' Err) : Nat :=
  match c.redis.rkeys c.pattern with
  | .error _ => 0
  | .ok ks => ks.length

/-- A redis client every one of whose primitives throws: used to witness the
fail-soft behavior. -/
def failingClient : RedisClient Unit :=
  ⟨fun _ => .error (), fun _ _ _ => .error (), fun _ => .error (),
   fun _ => .error (), fun _ => .error ()⟩

/-- A `REDISCache` over the all-failing client, with a trivial codec. -/
def failingCache : REDISCache Nat Unit :=
  ⟨"id", failingClient, fun n => .ok (toString n), fun _ => .error ()⟩

/-!
## Lemmas about the `Map` embedding
-/

theorem jsMapGet_set_self (m : List (K × V)) (k : K) (v : V) :
    jsMapGet (jsMapSet m k v) k = some v := by
  induction m with
  | nil => simp [jsMapSet, jsMapGet]
  | cons p rest ih =>
    by_cases h : p.1 = k
    · simp [jsMapSet, jsMapGet, h]
    · simp [jsMapSet, jsMapGet, h, ih]

theorem jsMapSet_absent (m : List (K × V)) (k : K) (v : V)
    (h : jsMapHas m k = false) : jsMapSet m k v = m ++ [(k, v)] := by
  induction m with
  | nil => simp [jsMapSet]
  | cons p rest ih =>
    by_cases hp : p.1 = k
    · simp [jsMapHas, hp] at h
    · simp [jsMapHas, hp] at h
      simp [jsMapSet, hp, ih h]

theorem jsMapHas_remove_self (m : List (K × V)) (k : K) :
    jsMapHas (jsMapRemove m k) k = false := by
  induction m with
  | nil => simp [jsMapRemove, jsMapHas]
  | cons p rest ih =>
    by_cases h : p.1 = k
    · simp [jsMapRemove, h, ih]
    · simp [jsMapRemove, jsMapHas, h, ih]

theorem jsMapGet_remove_self (m : List (K × V)) (k : K) :
    jsMapGet (jsMapRemove m k) k = none := by
  induction m with
  | nil => simp [jsMapRemove, jsMapGet]
  | cons p rest ih =>
    by_cases h : p.1 = k
    · simp [jsMapRemove, h, ih]
    · simp [jsMapRemove, jsMapGet, h, ih]

theorem jsMapRemove_absent (m : List (K × V)) (k : K)
    (h : jsMapHas m k = false) : jsMapRemove m k = m := by
  induction m with
  | nil => simp [jsMapRemove]
  | cons p rest ih =>
    by_cases hp : p.1 = k
    · simp [jsMapHas, hp] at h
    · simp [jsMapHas, hp] at h
      simp [jsMapRemove, hp, ih h]

theorem jsMapHas_eq_false_iff (m : List (K × V)) (k : K) :
    jsMapHas m k = false ↔ ∀ p ∈ m, p.1 ≠ k := by
  induction m with
  | nil => simp [jsMapHas]
  | cons p rest ih =>
    by_cases hp : p.1 = k
    · simp [jsMapHas, hp]
    · simp [jsMapHas, hp, ih]

theorem jsMapHas_set_self (m : List (K × V)) (k : K) (v : V) :
    jsMapHas (jsMapSet m k v) k = true := by
  induction m with
  | nil => simp [jsMapSet, jsMapHas]
  | cons p rest ih =>
    by_cases h : p.1 = k
    · simp [jsMapSet, jsMapHas, h]
    · simp [jsMapSet, jsMapHas, h, ih]

theorem jsMapSet_length_pos (m : List (K × V)) (k : K) (v : V) :
    0 < (jsMapSet m k v).length := by
  induction m with
  | nil => simp [jsMapSet]
  | cons p rest ih =>
    by_cases h : p.1 = k
    · simp [jsMapSet, h]
    · simp [jsMapSet, h]

theorem jsMapSet_keys_of_present (m : List (K × V)) (k : K) (v w : V)
    (h : jsMapGet m k = some w) :
    (jsMapSet m k v).map Prod.fst = m.map Prod.fst := by
  induction m with
  | nil => simp [jsMapGet] at h
  | cons p rest ih =>
    by_cases hp : p.1 = k
    · simp [jsMapSet, hp]
    · simp [jsMapGet, hp] at h
      simp [jsMapSet, hp, ih h]

theorem jsMapHas_remove_mono (m : List (K × V)) (k k' : K)
    (h : jsMapHas m k = false) : jsMapHas (jsMapRemove m k') k = false := by
  induction m with
  | nil => simp [jsMapRemove, jsMapHas]
  | cons p rest ih =>
    by_cases hp : p.1 = k
    · simp [jsMapHas, hp] at h
    · simp [jsMapHas, hp] at h
      by_cases hp' : p.1 = k'
      · simp [jsMapRemove, hp', ih h]
      · simp [jsMapRemove, jsMapHas, hp, hp', ih h]

theorem jsMapHas_append (a b : List (K × V)) (k : K) :
    jsMapHas (a ++ b) k = (jsMapHas a k || jsMapHas b k) := by
  induction a with
  | nil => simp [jsMapHas]
  | cons p rest ih =>
    by_cases h : p.1 = k
    · simp [jsMapHas, h]
    · simp [jsMapHas, h, ih]

theorem sweepScan_has_mono (E : List (K × Nat)) (now : Nat)
    (S : List (K × V)) (k : K) (h : jsMapHas S k = false) :
    jsMapHas (sweepScan E now S).2 k = false := by
  induction E generalizing S with
  | nil => simpa [sweepScan] using h
  | cons p rest ih =>
    by_cases hp : now > p.2
    · have step := ih (jsMapRemove S p.1) (jsMapHas_remove_mono S k p.1 h)
      simpa [sweepScan, hp] using step
    · have step := ih S h
      simpa [sweepScan, hp] using step

theorem jsMapHas_of_get (m : List (K × V)) (k : K) (v : V)
    (h : jsMapGet m k = some v) : jsMapHas m k = true := by
  induction m with
  | nil => simp [jsMapGet] at h
  | cons p rest ih =>
    by_cases hp : p.1 = k
    · simp [jsMapHas, hp]
    · simp [jsMapGet, hp] at h
      simp [jsMapHas, hp, ih h]

theorem jsMapHas_of_mem (m : List (K × V)) (p : K × V) (h : p ∈ m) :
    jsMapHas m p.1 = true := by
  induction m with
  | nil => cases h
  | cons q rest ih =>
    by_cases hq : q.1 = p.1
    · simp [jsMapHas, hq]
    · rcases List.mem_cons.mp h with h1 | h1
      · rw [h1] at hq
        exact absurd rfl hq
      · simp [jsMapHas, hq, ih h1]

theorem sweepScan_removes_expired (E : List (K × Nat)) (now : Nat)
    (S : List (K × V)) (k : K) (e : Nat) (hget : jsMapGet E k = some e)
    (hexp : now > e) : jsMapHas (sweepScan E now S).2 k = false := by
  induction E generalizing S with
  | nil => simp [jsMapGet] at hget
  | cons p rest ih =>
    by_cases hp : p.1 = k
    · simp [jsMapGet, hp] at hget
      subst hget
      simp [sweepScan, hexp]
      exact sweepScan_has_mono rest now (jsMapRemove S p.1) k
        (by rw [hp]; exact jsMapHas_remove_self S k)
    · simp [jsMapGet, hp] at hget
      by_cases hq : now > p.2
      · have step := ih (jsMapRemove S p.1) hget
        simpa [sweepScan, hq] using step
      · have step := ih S hget
        simpa [sweepScan, hq] using step

/-!
## Field-preservation helpers for `TTLCache`
-/

theorem startInterval_store (c : TTLCache K V) :
    (c.startExpirationInterval).store = c.store := by
  unfold TTLCache.startExpirationInterval
  split <;> rfl

theorem startInterval_exp (c : TTLCache K V) :
    (c.startExpirationInterval).expirationTimes = c.expirationTimes := by
  unfold TTLCache.startExpirationInterval
  split <;> rfl

theorem ttlSet_store (c : TTLCache K V) (k : K) (v : V) (now : Nat)
    (ttlArg : Option Nat) :
    (TTLCache.set c k v now ttlArg).store = jsMapSet c.store k v := by
  unfold TTLCache.set
  rw [startInterval_store]

theorem ttlSet_exp (c : TTLCache K V) (k : K) (v : V) (now : Nat)
    (ttlArg : Option Nat) :
    (TTLCache.set c k v now ttlArg).expirationTimes
      = jsMapSet c.expirationTimes k (now + ttlArg.getD c.interval) := by
  unfold TTLCache.set
  rw [startInterval_exp]

/-!
## Claims
-/

/-- C1: the spec claims `size <= capacity` after every `set`, but the
eviction guard `if (value)` tests the truthiness of the evicted *key*: with
capacity 1, `set(0, "a")` then `set(1, "b")` skips eviction (key `0` is
falsy) and leaves 2 entries — contradicting both the spec invariant and the
class's own documentation ("automatically evicts the least recently accessed
item when the cache reaches its capacity"). -/
theorem lru_capacity_exceeded_on_falsy_key :
    (LRUCache.set natTruthy
        (LRUCache.set natTruthy (⟨1, []⟩ : LRUCache Nat String) 0 "a")
        1 "b").capacity = 1 ∧
    (LRUCache.set natTruthy
        (LRUCache.set natTruthy (⟨1, []⟩ : LRUCache Nat String) 0 "a")
        1 "b").store = [(0, "a"), (1, "b")] ∧
    (LRUCache.set natTruthy
        (LRUCache.set natTruthy (⟨1, []⟩ : LRUCache Nat String) 0 "a")
        1 "b").store.length = 2 :=
  ⟨rfl, rfl, rfl⟩

/-- C2 counterexample: with a configured interval of 100ms, `set(5, "x", 0)`
at instant 1000 records expiry 1000 (= `now + 0`), while `set(5, "x")` with
the argument absent records expiry 1100 (= `now + interval`); a read at 1001
then misses in the first cache and hits in the second, so an explicit ttl of
0 is *not* treated as "use default". -/
theorem ttl_zero_differs_from_default :
    jsMapGet (TTLCache.set (TTLCache.init 100 : TTLCache Nat String)
      5 "x" 1000 (some 0)).expirationTimes 5 = some 1000 ∧
    jsMapGet (TTLCache.set (TTLCache.init 100 : TTLCache Nat String)
      5 "x" 1000 none).expirationTimes 5 = some 1100 ∧
    (TTLCache.get (TTLCache.set (TTLCache.init 100 : TTLCache Nat String)
      5 "x" 1000 (some 0)) 5 1001).1 = none ∧
    (TTLCache.get (TTLCache.set (TTLCache.init 100 : TTLCache Nat String)
      5 "x" 1000 none) 5 1001).1 = some "x" :=
  ⟨rfl, rfl, rfl, rfl⟩

/-- C2 amended: JS default parameters replace only an *absent* argument, so
`set(k, v, 0)` uses the ttl 0 literally: the recorded expiry equals the set
instant `s`, the entry is still alive for reads at instants `≤ s` (strict
comparison) but expired for every strictly later read; only `set(k, v)` with
the ttl argument omitted uses the configured default interval. -/
theorem ttl_zero_is_literal (c : TTLCache K V) (k : K) (v : V) (s r : Nat)
    (hs : 0 < s) :
    jsMapGet (TTLCache.set c k v s (some 0)).expirationTimes k = some s ∧
    (r ≤ s → (TTLCache.get (TTLCache.set c k v s (some 0)) k r).1 = some v) ∧
    (s < r → (TTLCache.get (TTLCache.set c k v s (some 0)) k r).1 = none) ∧
    jsMapGet (TTLCache.set c k v s none).expirationTimes k
      = some (s + c.interval) := by
  have hexp : jsMapGet (TTLCache.set c k v s (some 0)).expirationTimes k
      = some s := by
    rw [ttlSet_exp]
    exact jsMapGet_set_self _ _ _
  have hstore : jsMapGet (TTLCache.set c k v s (some 0)).store k = some v := by
    rw [ttlSet_store]
    exact jsMapGet_set_self _ _ _
  refine ⟨hexp, ?_, ?_, ?_⟩
  · intro hr
    have hneg : ¬ (s ≠ 0 ∧ r > s) := by omega
    simp [TTLCache.get, hexp, hneg, hstore]
  · intro hr
    have hpos : s ≠ 0 ∧ r > s := ⟨by omega, hr⟩
    simp [TTLCache.get, hexp, hpos]
  · rw [ttlSet_exp]
    exact jsMapGet_set_self _ _ _

/-- C2 witness for `ttl_zero_is_literal` at interval 100, key 5, set instant
1000. -/
theorem ttl_zero_is_literal_witness :
    jsMapGet (TTLCache.set (TTLCache.init 100 : TTLCache Nat String)
      5 "x" 1000 (some 0)).expirationTimes 5 = some 1000 ∧
    (1000 ≤ 1000 →
      (TTLCache.get (TTLCache.set (TTLCache.init 100 : TTLCache Nat String)
        5 "x" 1000 (some 0)) 5 1000).1 = some "x") ∧
    (1000 < 1000 →
      (TTLCache.get (TTLCache.set (TTLCache.init 100 : TTLCache Nat String)
        5 "x" 1000 (some 0)) 5 1000).1 = none) ∧
    jsMapGet (TTLCache.set (TTLCache.init 100 : TTLCache Nat String)
      5 "x" 1000 none).expirationTimes 5 = some 1100 :=
  ttl_zero_is_literal (TTLCache.init 100) 5 "x" 1000 1000 (by decide)

/-- C3 counterexample: with capacity 3, after `set(1,"a")`, `set(2,"b")`,
`set(1,"c")` the store is `[(1,"c"), (2,"b")]`: key 1 was updated but is
still *first*, not last, in iteration order — a JS `Map.set` on an existing
key updates in place and does not move it to the most-recent position. -/
theorem lru_set_keeps_position :
    (LRUCache.set natTruthy (LRUCache.set natTruthy
      (LRUCache.set natTruthy (⟨3, []⟩ : LRUCache Nat String) 1 "a")
      2 "b") 1 "c").store = [(1, "c"), (2, "b")] ∧
    jsMapGet (LRUCache.set natTruthy (LRUCache.set natTruthy
      (LRUCache.set natTruthy (⟨3, []⟩ : LRUCache Nat String) 1 "a")
      2 "b") 1 "c").store 1 = some "c" ∧
    ((LRUCache.set natTruthy (LRUCache.set natTruthy
      (LRUCache.set natTruthy (⟨3, []⟩ : LRUCache Nat String) 1 "a")
      2 "b") 1 "c").store.map Prod.fst).getLast? = some 2 :=
  ⟨rfl, rfl, rfl⟩

/-- C3 amended: `set(k, v)` on a key already present in a cache below
capacity updates the value but leaves the recency order unchanged (the key
sequence is exactly the old one — `k` is *not* moved to the most-recent
position). -/
theorem lru_set_present_updates_in_place (kT : K → Bool) (c : LRUCache K V)
    (k : K) (v w : V) (hmem : jsMapGet c.store k = some w)
    (hcap : c.store.length < c.capacity) :
    (LRUCache.set kT c k v).store = jsMapSet c.store k v ∧
    (LRUCache.set kT c k v).store.map Prod.fst = c.store.map Prod.fst ∧
    jsMapGet (LRUCache.set kT c k v).store k = some v := by
  have hge : ¬ (c.store.length ≥ c.capacity) := by omega
  have h1 : (LRUCache.set kT c k v).store = jsMapSet c.store k v := by
    simp [LRUCache.set, hge]
  refine ⟨h1, ?_, ?_⟩
  · rw [h1]
    exact jsMapSet_keys_of_present c.store k v w hmem
  · rw [h1]
    exact jsMapGet_set_self _ _ _

/-- C3 witness for `lru_set_present_updates_in_place` on the capacity-3
cache holding keys 1, 2. -/
theorem lru_set_present_updates_in_place_witness :
    (LRUCache.set natTruthy (⟨3, [(1, "a"), (2, "b")]⟩ : LRUCache Nat String)
      1 "c").store = jsMapSet [(1, "a"), (2, "b")] 1 "c" ∧
    (LRUCache.set natTruthy (⟨3, [(1, "a"), (2, "b")]⟩ : LRUCache Nat String)
      1 "c").store.map Prod.fst = [(1, "a"), (2, "b")].map Prod.fst ∧
    jsMapGet (LRUCache.set natTruthy
      (⟨3, [(1, "a"), (2, "b")]⟩ : LRUCache Nat String) 1 "c").store 1
      = some "c" :=
  lru_set_present_updates_in_place natTruthy ⟨3, [(1, "a"), (2, "b")]⟩
    1 "c" "a" rfl (by decide)

/-- C5: on a present key, `LRUCache.get` branches on the truthiness of the
stored value: a falsy value is returned as `undefined` with no recency
update (the state is unchanged), while a truthy value is removed and
re-appended at the most-recent end of the order and returned. -/
theorem lru_get_falsy_is_miss (vT : V → Bool) (c : LRUCache K V) (k : K)
    (v : V) (hmem : jsMapGet c.store k = some v) :
    (vT v = false → LRUCache.get vT c k = (none, c)) ∧
    (vT v = true →
      LRUCache.get vT c k
        = (some v, { c with store := jsMapRemove c.store k ++ [(k, v)] })) := by
  constructor
  · intro hf
    simp [LRUCache.get, hmem, hf]
  · intro ht
    have habs : jsMapHas (jsMapRemove c.store k) k = false :=
      jsMapHas_remove_self c.store k
    simp [LRUCache.get, hmem, ht, jsMapSet_absent _ _ _ habs]

/-- C5 witness for `lru_get_falsy_is_miss`: value 0 (falsy) is a miss with
no reorder; on the truthy side the instantiation with value 7 holds as
well. -/
theorem lru_get_falsy_is_miss_witness :
    ((natTruthy 0 = false →
      LRUCache.get natTruthy (⟨2, [(1, 0), (2, 7)]⟩ : LRUCache Nat Nat) 1
        = (none, ⟨2, [(1, 0), (2, 7)]⟩)) ∧
    (natTruthy 0 = true →
      LRUCache.get natTruthy (⟨2, [(1, 0), (2, 7)]⟩ : LRUCache Nat Nat) 1
        = (some 0, { (⟨2, [(1, 0), (2, 7)]⟩ : LRUCache Nat Nat) with
            store := jsMapRemove [(1, 0), (2, 7)] 1 ++ [(1, 0)] }))) :=
  lru_get_falsy_is_miss natTruthy ⟨2, [(1, 0), (2, 7)]⟩ 1 0 rfl

/-- C4: for an entry set at a (positive) clock instant `s` with ttl `t`,
`get` returns the stored value and leaves the cache unchanged for every
read at an instant `≤ s + t` — including the exact expiry instant, because
the comparison `now > expirationTime` is strict — and for every read at an
instant `> s + t` it returns `undefined` and removes the entry from both
the value store and the expiry index. -/
theorem ttl_get_expiry_boundary (c : TTLCache K V) (k : K) (v : V)
    (s t r : Nat) (hs : 0 < s) :
    (r ≤ s + t →
      TTLCache.get (TTLCache.set c k v s (some t)) k r
        = (some v, TTLCache.set c k v s (some t))) ∧
    (s + t < r →
      (TTLCache.get (TTLCache.set c k v s (some t)) k r).1 = none ∧
      jsMapGet (TTLCache.get (TTLCache.set c k v s (some t)) k r).2.store k
        = none ∧
      jsMapGet
        (TTLCache.get (TTLCache.set c k v s (some t)) k r).2.expirationTimes k
        = none) := by
  have hexp : jsMapGet (TTLCache.set c k v s (some t)).expirationTimes k
      = some (s + t) := by
    rw [ttlSet_exp]
    exact jsMapGet_set_self _ _ _
  have hstore : jsMapGet (TTLCache.set c k v s (some t)).store k = some v := by
    rw [ttlSet_store]
    exact jsMapGet_set_self _ _ _
  constructor
  · intro hr
    simp [TTLCache.get, hexp, hstore]
    omega
  · intro hr
    have hpos : s + t ≠ 0 ∧ r > s + t := ⟨by omega, hr⟩
    simp [TTLCache.get, hexp, hpos, jsMapGet_remove_self]

/-- C4 witness for `ttl_get_expiry_boundary`: key 5 set at instant 1000 with
ttl 50, read at the exact boundary 1050. -/
theorem ttl_get_expiry_boundary_witness :
    (1050 ≤ 1000 + 50 →
      TTLCache.get (TTLCache.set (TTLCache.init 0 : TTLCache Nat String)
          5 "x" 1000 (some 50)) 5 1050
        = (some "x",
           TTLCache.set (TTLCache.init 0 : TTLCache Nat String)
             5 "x" 1000 (some 50))) ∧
    (1000 + 50 < 1050 →
      (TTLCache.get (TTLCache.set (TTLCache.init 0 : TTLCache Nat String)
          5 "x" 1000 (some 50)) 5 1050).1 = none ∧
      jsMapGet (TTLCache.get (TTLCache.set
          (TTLCache.init 0 : TTLCache Nat String)
          5 "x" 1000 (some 50)) 5 1050).2.store 5 = none ∧
      jsMapGet (TTLCache.get (TTLCache.set
          (TTLCache.init 0 : TTLCache Nat String)
          5 "x" 1000 (some 50)) 5 1050).2.expirationTimes 5 = none) :=
  ttl_get_expiry_boundary (TTLCache.init 0) 5 "x" 1000 50 1050 (by decide)

/-- C7: in a `TTLCache` satisfying the spec invariant (every key of the
expiry index is in the value store), `delete` of an absent key returns
`false` and changes nothing; the inherited `Map.delete` of the `LRUCache`
does the same; and `delete` of a present `TTLCache` key returns `true` and
removes the key from both the value store and the expiry index. -/
theorem delete_absent_noop (c : TTLCache K V) (d : LRUCache K V) (ka kp : K)
    (hinv : ∀ p ∈ c.expirationTimes, jsMapHas c.store p.1 = true) :
    (jsMapHas c.store ka = false → TTLCache.delete c ka = (false, c)) ∧
    (jsMapHas d.store ka = false → LRUCache.delete d ka = (false, d)) ∧
    (∀ v, jsMapGet c.store kp = some v →
      (TTLCache.delete c kp).1 = true ∧
      jsMapHas (TTLCache.delete c kp).2.store kp = false ∧
      jsMapHas (TTLCache.delete c kp).2.expirationTimes kp = false) := by
  refine ⟨?_, ?_, ?_⟩
  · intro habs
    have hexp : jsMapHas c.expirationTimes ka = false := by
      rw [jsMapHas_eq_false_iff]
      intro p hp hpk
      have htrue := hinv p hp
      rw [hpk] at htrue
      rw [htrue] at habs
      exact Bool.noConfusion habs
    rw [TTLCache.delete, jsMapRemove_absent _ _ habs,
      jsMapRemove_absent _ _ hexp, habs]
  · intro habs
    rw [LRUCache.delete, jsMapRemove_absent _ _ habs, habs]
  · intro v hmem
    refine ⟨?_, ?_, ?_⟩
    · rw [TTLCache.delete]
      exact jsMapHas_of_get _ _ _ hmem
    · exact jsMapHas_remove_self _ _
    · exact jsMapHas_remove_self _ _

/-- C7 witness for `delete_absent_noop`: a TTL cache holding key 1, and an
LRU cache holding key 1, tested at the absent key 9 and the present key
1. -/
theorem delete_absent_noop_witness :
    (jsMapHas [(1, "a")] 9 = false →
      TTLCache.delete (⟨0, [(1, "a")], [(1, 50)], false⟩ : TTLCache Nat String)
          9
        = (false, ⟨0, [(1, "a")], [(1, 50)], false⟩)) ∧
    (jsMapHas [(1, "a")] 9 = false →
      LRUCache.delete (⟨2, [(1, "a")]⟩ : LRUCache Nat String) 9
        = (false, ⟨2, [(1, "a")]⟩)) ∧
    (∀ v, jsMapGet [(1, "a")] 1 = some v →
      (TTLCache.delete
        (⟨0, [(1, "a")], [(1, 50)], false⟩ : TTLCache Nat String) 1).1
        = true ∧
      jsMapHas (TTLCache.delete
        (⟨0, [(1, "a")], [(1, 50)], false⟩ : TTLCache Nat String) 1).2.store 1
        = false ∧
      jsMapHas (TTLCache.delete
        (⟨0, [(1, "a")], [(1, 50)], false⟩ : TTLCache Nat String)
          1).2.expirationTimes 1 = false) :=
  delete_absent_noop ⟨0, [(1, "a")], [(1, 50)], false⟩ ⟨2, [(1, "a")]⟩ 9 1
    (by decide)

/-- C8: a sweep tick that leaves the expiry index empty cancels the interval
and clears its handle (`expirationInterval` becomes `false`), and — with a
positive configured interval — any subsequent `set` re-arms it
(`expirationInterval` is `true` after the call). -/
theorem ttl_sweep_quiescence (c : TTLCache K V) (now : Nat) (k : K) (v : V)
    (s : Nat) (ttlArg : Option Nat) (hint : 0 < c.interval) :
    ((c.sweepTick now).expirationTimes = [] →
      (c.sweepTick now).expirationInterval = false) ∧
    (TTLCache.set c k v s ttlArg).expirationInterval = true := by
  constructor
  · intro h
    by_cases hz : (sweepScan c.expirationTimes now c.store).1.length = 0
    · simp [TTLCache.sweepTick, hz]
    · simp [TTLCache.sweepTick, hz] at h
      rw [h] at hz
      exact absurd rfl hz
  · unfold TTLCache.set TTLCache.startExpirationInterval
    by_cases hb : c.expirationInterval = false
    · simp [hb, jsMapSet_length_pos, hint]
    · have hb' : c.expirationInterval = true := by
        revert hb
        cases c.expirationInterval <;> simp
      simp [hb']

/-- C8 witness for `ttl_sweep_quiescence`: an interval-100 cache whose only
entry (expiry 50) is swept at instant 200, and a fresh `set` at instant
300. -/
theorem ttl_sweep_quiescence_witness :
    (((⟨100, [(1, "a")], [(1, 50)], true⟩ : TTLCache Nat String).sweepTick
        200).expirationTimes = [] →
      ((⟨100, [(1, "a")], [(1, 50)], true⟩ : TTLCache Nat String).sweepTick
        200).expirationInterval = false) ∧
    (TTLCache.set (⟨100, [(1, "a")], [(1, 50)], true⟩ : TTLCache Nat String)
      2 "b" 300 none).expirationInterval = true :=
  ttl_sweep_quiescence ⟨100, [(1, "a")], [(1, 50)], true⟩ 200 2 "b" 300 none
    (by decide)

/-- C10: after `set k v` at instant `s` with ttl `t`, even at a conceptual
read instant `r` strictly past the expiry `s + t` the inherited `Map`
operations still see the entry — `has k` is `true` and `size` counts it —
because expiry alone removes nothing; the entry is removed once a sweep
tick actually runs at `r`. -/
theorem ttl_expired_entry_still_counted (c : TTLCache K V) (k : K) (v : V)
    (s t r : Nat) (hr : s + t < r) :
    TTLCache.has (TTLCache.set c k v s (some t)) k = true ∧
    1 ≤ TTLCache.size (TTLCache.set c k v s (some t)) ∧
    TTLCache.has ((TTLCache.set c k v s (some t)).sweepTick r) k = false := by
  refine ⟨?_, ?_, ?_⟩
  · rw [TTLCache.has, ttlSet_store]
    exact jsMapHas_set_self _ _ _
  · rw [TTLCache.size, ttlSet_store]
    exact jsMapSet_length_pos _ _ _
  · rw [TTLCache.has]
    have hstore : ((TTLCache.set c k v s (some t)).sweepTick r).store
        = (sweepScan (TTLCache.set c k v s (some t)).expirationTimes r
            (TTLCache.set c k v s (some t)).store).2 := by
      simp only [TTLCache.sweepTick]
      split <;> rfl
    rw [hstore]
    apply sweepScan_removes_expired _ _ _ _ (s + t) _ hr
    rw [ttlSet_exp]
    exact jsMapGet_set_self _ _ _

/-- C10 witness for `ttl_expired_entry_still_counted`: key 1 set at instant
1 with ttl 1, inspected past expiry at instant 3. -/
theorem ttl_expired_entry_still_counted_witness :
    TTLCache.has (TTLCache.set (TTLCache.init 100 : TTLCache Nat String)
      1 "x" 1 (some 1)) 1 = true ∧
    1 ≤ TTLCache.size (TTLCache.set (TTLCache.init 100 : TTLCache Nat String)
      1 "x" 1 (some 1)) ∧
    TTLCache.has ((TTLCache.set (TTLCache.init 100 : TTLCache Nat String)
      1 "x" 1 (some 1)).sweepTick 3) 1 = false :=
  ttl_expired_entry_still_counted (TTLCache.init 100) 1 "x" 1 1 3 (by decide)

/-- C9: when the underlying redis primitives throw, every `REDISCache`
operation catches the failure and returns its neutral result — `undefined`
for `get`, `false` for `set`/`delete`/`has`, the empty array for `values`,
0 for `size` (and `clear` returns as well); in the embedding every
operation is a total function, so nothing propagates to the caller. -/
theorem redis_fail_soft (c : REDISCache V' Err) (k : String) (v : V')
    (ttl : Nat) (e : Err)
    (hget : ∀ s, c.redis.rget s = .error e)
    (hset : ∀ s p t, c.redis.rset s p t = .error e)
    (hdel : ∀ l, c.redis.rdel l = .error e)
    (hex : ∀ s, c.redis.rexists s = .error e)
    (hkeys : ∀ p, c.redis.rkeys p = .error e) :
    REDISCache.get c k = none ∧ REDISCache.set c k v ttl = false ∧
    REDISCache.delete c k = false ∧ REDISCache.has c k = false ∧
    REDISCache.values c = [] ∧ REDISCache.clear c = () ∧
    REDISCache.size c = 0 := by
  refine ⟨?_, ?_, ?_, ?_, ?_, ?_, ?_⟩
  · simp [REDISCache.get, hget]
  · rcases h : c.stringify v with e' | s
    · simp [REDISCache.set, h]
    · simp [REDISCache.set, h, hset]
  · simp [REDISCache.delete, hdel]
  · simp [REDISCache.has, hex]
  · simp [REDISCache.values, hkeys]
  · simp [REDISCache.clear, hkeys]
  · simp [REDISCache.size, hkeys]

/-- C9 witness for `redis_fail_soft` on the all-failing client. -/
theorem redis_fail_soft_witness :
    REDISCache.get failingCache "k" = none ∧
    REDISCache.set failingCache "k" 7 3 = false ∧
    REDISCache.delete failingCache "k" = false ∧
    REDISCache.has failingCache "k" = false ∧
    REDISCache.values failingCache = [] ∧
    REDISCache.clear failingCache = () ∧
    REDISCache.size failingCache = 0 :=
  redis_fail_soft failingCache "k" 7 3 ()
    (fun _ => rfl) (fun _ _ _ => rfl) (fun _ => rfl) (fun _ => rfl)
    (fun _ => rfl)

theorem insertAll_fresh (kT : K → Bool) (ps : List (K × V))
    (c : LRUCache K V) (hcap : c.store.length + ps.length ≤ c.capacity)
    (hfresh : ∀ p ∈ ps, jsMapHas c.store p.1 = false)
    (hnodup : (ps.map Prod.fst).Nodup) :
    (insertAll kT c ps).store = c.store ++ ps ∧
    (insertAll kT c ps).capacity = c.capacity := by
  induction ps generalizing c with
  | nil => simp [insertAll]
  | cons p rest ih =>
    obtain ⟨pk, pv⟩ := p
    simp only [List.map_cons, List.nodup_cons, List.mem_map] at hnodup
    have hlen : ¬ (c.store.length ≥ c.capacity) := by
      simp only [List.length_cons] at hcap
      omega
    have hset : (LRUCache.set kT c pk pv).store = c.store ++ [(pk, pv)] := by
      have h1 : (LRUCache.set kT c pk pv).store = jsMapSet c.store pk pv := by
        simp [LRUCache.set, hlen]
      rw [h1]
      exact jsMapSet_absent _ _ _ (hfresh (pk, pv) (List.mem_cons_self _ _))
    have hcapf : (LRUCache.set kT c pk pv).capacity = c.capacity := rfl
    have hcap2 : (LRUCache.set kT c pk pv).store.length + rest.length
        ≤ (LRUCache.set kT c pk pv).capacity := by
      rw [hset, hcapf]
      simp only [List.length_append, List.length_cons, List.length_nil]
        at hcap ⊢
      omega
    have hfresh2 : ∀ q ∈ rest,
        jsMapHas (LRUCache.set kT c pk pv).store q.1 = false := by
      intro q hq
      rw [hset, jsMapHas_append]
      have h1 : jsMapHas c.store q.1 = false :=
        hfresh q (List.mem_cons_of_mem _ hq)
      have hne : pk ≠ q.1 := by
        intro h
        exact hnodup.1 ⟨q, hq, h.symm⟩
      simp [h1, jsMapHas, hne]
    have hmain := ih (LRUCache.set kT c pk pv) hcap2 hfresh2 hnodup.2
    constructor
    · have hstep : (insertAll kT c ((pk, pv) :: rest)).store
          = (insertAll kT (LRUCache.set kT c pk pv) rest).store := rfl
      rw [hstep, hmain.1, hset]
      simp
    · have hstep : (insertAll kT c ((pk, pv) :: rest)).capacity
          = (insertAll kT (LRUCache.set kT c pk pv) rest).capacity := rfl
      rw [hstep, hmain.2, hcapf]

/-- C6: with capacity `n = rest.length + 2`, inserting the distinct keys
`k1, k2, rest-keys` (that is `k1..kn`), then `get k1` (whose value is
truthy, so the hit refreshes `k1` to most-recent), then `set kf` with a
fresh key (`k(n+1)`) evicts `k2` — the now-least-recent truthy key — and
not `k1`: the final store is exactly `rest ++ [(k1, v1), (kf, vf)]`, so
`k2` is absent while `k1`, every key of `rest`, and `kf` are present. -/
theorem lru_access_refresh (kT : K → Bool) (vT : V → Bool) (k1 k2 kf : K)
    (v1 v2 vf : V) (rest : List (K × V))
    (h12 : k1 ≠ k2) (hf1 : kf ≠ k1) (hf2 : kf ≠ k2)
    (h1r : ∀ p ∈ rest, p.1 ≠ k1) (h2r : ∀ p ∈ rest, p.1 ≠ k2)
    (hfr : ∀ p ∈ rest, p.1 ≠ kf)
    (hnodup : (rest.map Prod.fst).Nodup)
    (hk2 : kT k2 = true) (hv1 : vT v1 = true) :
    ∀ c3 : LRUCache K V,
      c3 = LRUCache.set kT
        ((LRUCache.get vT
          (insertAll kT (⟨rest.length + 2, []⟩ : LRUCache K V)
            ((k1, v1) :: (k2, v2) :: rest))
          k1).2) kf vf →
      c3.store = rest ++ [(k1, v1), (kf, vf)] ∧
      jsMapHas c3.store k2 = false ∧
      jsMapHas c3.store k1 = true ∧
      jsMapHas c3.store kf = true ∧
      (∀ p ∈ rest, jsMapHas c3.store p.1 = true) := by
  intro c3 hc3
  have habs1 : jsMapHas rest k1 = false := (jsMapHas_eq_false_iff rest k1).mpr h1r
  have habs2 : jsMapHas rest k2 = false := (jsMapHas_eq_false_iff rest k2).mpr h2r
  have habsf : jsMapHas rest kf = false := (jsMapHas_eq_false_iff rest kf).mpr hfr
  -- phase 1: the n inserts fill the empty cache in order
  have hfill := insertAll_fresh kT ((k1, v1) :: (k2, v2) :: rest)
      (⟨rest.length + 2, []⟩ : LRUCache K V)
      (by simp)
      (by intro p hp; rfl)
      (by
        simp only [List.map_cons]
        refine List.nodup_cons.mpr ⟨?_, List.nodup_cons.mpr ⟨?_, hnodup⟩⟩
        · simp only [List.mem_cons, List.mem_map]
          rintro (h | ⟨p, hp, hpk⟩)
          · exact h12 h
          · exact h1r p hp hpk
        · simp only [List.mem_map]
          rintro ⟨p, hp, hpk⟩
          exact h2r p hp hpk)
  set c1 := insertAll kT (⟨rest.length + 2, []⟩ : LRUCache K V)
    ((k1, v1) :: (k2, v2) :: rest) with hc1def
  have hstore1 : c1.store = (k1, v1) :: (k2, v2) :: rest := by
    rw [hfill.1]
    rfl
  have hcap1 : c1.capacity = rest.length + 2 := hfill.2
  -- phase 2: get k1 is a truthy hit, k1 moves to most-recent
  have hget : jsMapGet c1.store k1 = some v1 := by
    rw [hstore1]
    simp [jsMapGet]
  have hc2 : (LRUCache.get vT c1 k1).2
      = { c1 with store := jsMapSet (jsMapRemove c1.store k1) k1 v1 } := by
    simp [LRUCache.get, hget, hv1]
  have hrm1 : jsMapRemove c1.store k1 = (k2, v2) :: rest := by
    rw [hstore1]
    simp [jsMapRemove, Ne.symm h12, jsMapRemove_absent rest k1 habs1]
  have hc2store : (LRUCache.get vT c1 k1).2.store
      = (k2, v2) :: (rest ++ [(k1, v1)]) := by
    rw [hc2]
    show jsMapSet (jsMapRemove c1.store k1) k1 v1
        = (k2, v2) :: (rest ++ [(k1, v1)])
    rw [hrm1]
    have habs : jsMapHas ((k2, v2) :: rest) k1 = false := by
      simp [jsMapHas, Ne.symm h12, habs1]
    rw [jsMapSet_absent _ _ _ habs]
    simp
  have hc2cap : (LRUCache.get vT c1 k1).2.capacity = rest.length + 2 := by
    rw [hc2]
    exact hcap1
  -- phase 3: set kf at full capacity evicts the first (truthy) key k2
  have hlen : (LRUCache.get vT c1 k1).2.store.length
      ≥ (LRUCache.get vT c1 k1).2.capacity := by
    rw [hc2store, hc2cap]
    simp
  have hhead : (LRUCache.get vT c1 k1).2.store.head? = some (k2, v2) := by
    rw [hc2store]
    rfl
  have hrm2 : jsMapRemove (LRUCache.get vT c1 k1).2.store k2
      = rest ++ [(k1, v1)] := by
    rw [hc2store]
    have habs : jsMapHas (rest ++ [(k1, v1)]) k2 = false := by
      rw [jsMapHas_append]
      simp [jsMapHas, habs2, h12]
    simp [jsMapRemove, jsMapRemove_absent _ _ habs]
  have hstore3 : c3.store = rest ++ [(k1, v1), (kf, vf)] := by
    rw [hc3]
    have hs : (LRUCache.set kT (LRUCache.get vT c1 k1).2 kf vf).store
        = jsMapSet (jsMapRemove (LRUCache.get vT c1 k1).2.store k2) kf vf := by
      simp [LRUCache.set, hlen, hhead, hk2]
    rw [hs, hrm2]
    have habs : jsMapHas (rest ++ [(k1, v1)]) kf = false := by
      rw [jsMapHas_append]
      simp [jsMapHas, habsf, Ne.symm hf1]
    rw [jsMapSet_absent _ _ _ habs]
    simp
  refine ⟨hstore3, ?_, ?_, ?_, ?_⟩
  · rw [hstore3, jsMapHas_append]
    simp [jsMapHas, habs2, h12, hf2]
  · rw [hstore3, jsMapHas_append]
    simp [jsMapHas]
  · rw [hstore3, jsMapHas_append]
    simp [jsMapHas, Ne.symm hf1]
  · intro p hp
    rw [hstore3, jsMapHas_append]
    simp [jsMapHas_of_mem rest p hp]

/-- C6 witness for `lru_access_refresh`: capacity 3, keys 1, 2, 3 inserted
in order, `get 1`, then `set 4` evicts key 2. -/
theorem lru_access_refresh_witness :
    (LRUCache.set natTruthy
      ((LRUCache.get natTruthy
        (insertAll natTruthy (⟨3, []⟩ : LRUCache Nat Nat)
          [(1, 10), (2, 20), (3, 30)]) 1).2) 4 40).store
      = [(3, 30)] ++ [(1, 10), (4, 40)] ∧
    jsMapHas (LRUCache.set natTruthy
      ((LRUCache.get natTruthy
        (insertAll natTruthy (⟨3, []⟩ : LRUCache Nat Nat)
          [(1, 10), (2, 20), (3, 30)]) 1).2) 4 40).store 2 = false ∧
    jsMapHas (LRUCache.set natTruthy
      ((LRUCache.get natTruthy
        (insertAll natTruthy (⟨3, []⟩ : LRUCache Nat Nat)
          [(1, 10), (2, 20), (3, 30)]) 1).2) 4 40).store 1 = true ∧
    jsMapHas (LRUCache.set natTruthy
      ((LRUCache.get natTruthy
        (insertAll natTruthy (⟨3, []⟩ : LRUCache Nat Nat)
          [(1, 10), (2, 20), (3, 30)]) 1).2) 4 40).store 4 = true ∧
    (∀ p ∈ [(3, 30)], jsMapHas (LRUCache.set natTruthy
      ((LRUCache.get natTruthy
        (insertAll natTruthy (⟨3, []⟩ : LRUCache Nat Nat)
          [(1, 10), (2, 20), (3, 30)]) 1).2) 4 40).store p.1 = true) :=
  lru_access_refresh natTruthy natTruthy 1 2 4 10 20 40 [(3, 30)]
    (by decide) (by decide) (by decide) (by decide) (by decide) (by decide)
    (by decide) rfl rfl _ rfl
